import Mathlib

/-!
Verification of the host-inventory / diagram core of `nmap-to-drawio.py`.

The Python source is shallowly embedded below: each Python function is
translated into a Lean definition of the same name (modulo Lean naming
rules), with Python's `None`/`""` truthiness, regular-expression matching
and mutable loops made explicit.  Machine integers are modelled by `Int`
(Python integers are unbounded), float quantities of the layout engine by
`ℚ` (the float computations involved are exact at these magnitudes).
-/

set_option autoImplicit false

namespace NmapDrawio

/-- Python's whitespace class `\s` over ASCII text: space, tab, newline,
carriage return, vertical tab and form feed. -/
def isPySpace (c : Char) : Bool :=
  c = ' ' || c = '\t' || c = '\n' || c = '\r' || c = '\x0b' || c = '\x0c'

/-- Python `str.strip()` (for the ASCII whitespace characters). -/
def pyStrip (s : String) : String :=
  String.mk (((s.data.dropWhile isPySpace).reverse.dropWhile isPySpace).reverse)

/-- Python `str.lstrip()`. -/
def pyLstrip (s : String) : String :=
  String.mk (s.data.dropWhile isPySpace)

/-- `str.split(sep)` for the one-character separators the source uses
(`"\n"`, `","`, `"/"`, `"."`), written by structural recursion so that it
evaluates on concrete inputs. -/
def splitChar (sep : Char) : List Char → List (List Char)
  | [] => [[]]
  | c :: cs =>
    let r := splitChar sep cs
    if c = sep then [] :: r else (c :: r.headD []) :: r.tail

/-- `splitChar` lifted to strings. -/
def pySplitOn (sep : Char) (s : String) : List String :=
  (splitChar sep s.data).map String.mk

/-- `text.replace("\r\n", "\n")`: leftmost, non-overlapping. -/
def replaceCrLf : List Char → List Char
  | [] => []
  | '\r' :: '\n' :: cs => '\n' :: replaceCrLf cs
  | c :: cs => c :: replaceCrLf cs

/-- `replaceCrLf` lifted to strings. -/
def pyReplaceCrLf (s : String) : String :=
  String.mk (replaceCrLf s.data)

/-- Python truthiness of an optional string: `None` and `""` are falsy. -/
def truthy : Option String → Bool
  | none => false
  | some s => s != ""

/-- The `Host` dataclass of the source: address, optional resolved name,
open-port descriptor strings, optional OS guess and accuracy. -/
structure Host where
  ip : String
  name : Option String := none
  ports : List String := []
  os_guess : Option String := none
  os_accuracy : Option Int := none
deriving DecidableEq, Repr

/-- The `Host.display_label` property: `name` and `ip` on two lines when a
(truthy) name differs from the address, otherwise just the address. -/
def Host.display_label (h : Host) : String :=
  match h.name with
  | some nm => if nm != "" && nm != h.ip then nm ++ "\n" ++ h.ip else h.ip
  | none => h.ip

/-- The `Host.tooltip_text` property: an `OS:` line (with accuracy when
known), then either `Open ports:` followed by the port descriptors or the
`No open ports parsed` marker, joined by newlines. -/
def Host.tooltip_text (h : Host) : String :=
  let osLine :=
    match h.os_guess with
    | some g =>
        if g != "" then
          "OS: " ++ g ++
            (match h.os_accuracy with
             | some a => " (" ++ toString a ++ "%)"
             | none => "")
        else "OS: Unknown"
    | none => "OS: Unknown"
  let portLines := if h.ports.isEmpty then ["No open ports parsed"] else "Open ports:" :: h.ports
  String.intercalate "\n" (osLine :: portLines)

/-- `_maybe_set_os`: set the OS guess on `current` if no guess is held yet,
or if the candidate's accuracy is known and beats the recorded one. -/
def _maybe_set_os (current : Host) (guess : Option String) (acc : Option Int) : Host :=
  if truthy guess = false then current
  else
    match current.os_guess with
    | none => { current with os_guess := guess, os_accuracy := acc }
    | some _ =>
      match acc, current.os_accuracy with
      | some a, none => { current with os_guess := guess, os_accuracy := some a }
      | some a, some b =>
          if b < a then { current with os_guess := guess, os_accuracy := some a } else current
      | none, _ => current

/-- A sequence of `_maybe_set_os` updates applied to one host, as the
normal parser performs line by line over a host's block. -/
def osUpdates (h : Host) (us : List (Option String × Option Int)) : Host :=
  us.foldl (fun c u => _maybe_set_os c u.1 u.2) h

/-- The port-appending loop shared by the per-host dedup pass of the normal
parser (`seen`/`uniq`, starting from `[]`) and by `merge_hosts_by_ip`
(starting from the canonical record's ports): each incoming descriptor is
appended only when not already present, against the growing list. -/
def addNewPorts (ps new : List String) : List String :=
  new.foldl (fun acc p => if p ∈ acc then acc else acc ++ [p]) ps

/-- The `else` branch of `merge_hosts_by_ip`: fold a later record `h` into
the canonical record `existing` holding the same address (adopt the name
only when the canonical one is falsy, apply the inlined OS-guess update
rule, append unseen ports). -/
def mergeInto (existing h : Host) : Host :=
  let osPair : Option String × Option Int :=
    if truthy h.os_guess then
      match existing.os_guess with
      | none => (h.os_guess, h.os_accuracy)
      | some _ =>
        match h.os_accuracy, existing.os_accuracy with
        | some a, none => (h.os_guess, some a)
        | some a, some b =>
            if b < a then (h.os_guess, some a) else (existing.os_guess, existing.os_accuracy)
        | none, _ => (existing.os_guess, existing.os_accuracy)
    else (existing.os_guess, existing.os_accuracy)
  { ip := existing.ip
    name := if truthy existing.name = false && truthy h.name then h.name else existing.name
    ports := addNewPorts existing.ports h.ports
    os_guess := osPair.1
    os_accuracy := osPair.2 }

/-- One iteration of the `merge_hosts_by_ip` loop.  The Python `by_ip` dict
(which preserves insertion order) is modelled by the ordered list of its
values: a fresh address appends a copy of the record, a seen address updates
the (unique) record carrying it in place. -/
def mergeStep (acc : List Host) (h : Host) : List Host :=
  if acc.any (fun e => e.ip == h.ip) then
    acc.map (fun e => if e.ip == h.ip then mergeInto e h else e)
  else
    acc ++ [h]

/-- `merge_hosts_by_ip`: fold possibly duplicate-address records into one
record per address, in first-seen address order. -/
def merge_hosts_by_ip (hosts : List Host) : List Host :=
  hosts.foldl mergeStep []

/-- `math.ceil(math.sqrt n)`.  For the host counts at hand the float square
root is exact enough that its ceiling coincides with the exact one. -/
def ceilSqrt (n : Nat) : Nat :=
  if Nat.sqrt n * Nat.sqrt n = n then Nat.sqrt n else Nat.sqrt n + 1

/-- `compute_layout`: grid shape and scaled geometry from the host count.
`math.ceil(n / cols)` is the exact ceiling division here; the float node
sizes and gaps are modelled by rationals (the products are exact). -/
def compute_layout (n : Nat) : Nat × Nat × ℚ × ℚ × ℚ × ℚ :=
  if n ≤ 0 then (1, 1, 160, 70, 40, 40)
  else
    let cols := max 1 (ceilSqrt n)
    let rows := max 1 ((n + cols - 1) / cols)
    let scale : ℚ := 1.0
    let scale := if 30 < n then (0.85 : ℚ) else scale
    let scale := if 80 < n then (0.7 : ℚ) else scale
    let scale := if 150 < n then (0.6 : ℚ) else scale
    (cols, rows, 160 * scale, 70 * scale, 40 * scale, 40 * scale)

/-! ### First-guess-with-accuracy extraction (`_parse_first_guess_with_accuracy`) -/

/-- Numeric value of a digit run. -/
def digitsToNat (ds : List Char) : Nat :=
  ds.foldl (fun n c => n * 10 + (c.toNat - '0'.toNat)) 0

/-- `re.search(r"\((\d+)%\)", ...)`: the integer of the leftmost
`(<digits>%)` fragment. -/
def findAcc : List Char → Option Int
  | [] => none
  | '(' :: cs =>
      let ds := cs.takeWhile Char.isDigit
      if ds.isEmpty then findAcc cs
      else
        match cs.drop ds.length with
        | '%' :: ')' :: _ => some (digitsToNat ds : Int)
        | _ => findAcc cs
  | _ :: cs => findAcc cs

/-- One anchored attempt of `\s*\(\d+%\)\s*`: when the pattern matches a
prefix of `cs`, return the remainder after the match. -/
def accMatchAt (cs : List Char) : Option (List Char) :=
  match cs.dropWhile isPySpace with
  | [] => none
  | c :: rest =>
    if c = '(' then
      if (rest.takeWhile Char.isDigit).isEmpty then none
      else
        match rest.drop (rest.takeWhile Char.isDigit).length with
        | p :: q :: tail =>
            if p = '%' ∧ q = ')' then some (tail.dropWhile isPySpace) else none
        | _ => none
    else none

theorem length_dropWhile_le (p : Char → Bool) (l : List Char) :
    (l.dropWhile p).length ≤ l.length := by
  induction l with
  | nil => simp [List.dropWhile]
  | cons a l ih =>
      by_cases h : p a
      · simp only [List.dropWhile, h]
        exact le_trans ih (by simp)
      · simp [List.dropWhile, h]

theorem accMatchAt_length {cs r : List Char} (h : accMatchAt cs = some r) :
    r.length < cs.length := by
  have hle := length_dropWhile_le isPySpace cs
  unfold accMatchAt at h
  split at h
  · simp at h
  · rename_i c rest hd
    rw [hd] at hle
    simp only [List.length_cons] at hle
    split at h
    · split at h
      · simp at h
      · split at h
        · rename_i p q tail heq
          split at h
          · have hr : r = tail.dropWhile isPySpace := by
              injection h with h'; exact h'.symm
            have h1 : (tail.dropWhile isPySpace).length ≤ tail.length :=
              length_dropWhile_le _ _
            have hdl : (rest.drop (rest.takeWhile Char.isDigit).length).length ≤
                rest.length := by
              rw [List.length_drop]; exact Nat.sub_le _ _
            rw [heq] at hdl
            simp only [List.length_cons] at hdl
            subst hr
            omega
          · simp at h
        · simp at h
    · simp at h

set_option linter.unusedVariables false in
/-- `re.sub(r"\s*\(\d+%\)\s*", "", ...)`: delete every (leftmost,
non-overlapping) occurrence of the percentage annotation.  (`hma` is
consumed by the termination argument.) -/
def stripAccAll : List Char → List Char
  | [] => []
  | c :: cs =>
    match hma : accMatchAt (c :: cs) with
    | some rest => stripAccAll rest
    | none => c :: stripAccAll cs
termination_by l => l.length
decreasing_by
  · exact accMatchAt_length hma
  · simp

/-- `_parse_first_guess_with_accuracy`: take the first comma-separated
fragment, extract the leftmost `(NN%)` percentage if present, and return the
label with all percentage annotations removed (empty label becomes `None`). -/
def _parse_first_guess_with_accuracy (s : String) : Option String × Option Int :=
  if s == "" then (none, none)
  else
    let first := pyStrip ((pySplitOn ',' s).headD "")
    let acc := findAcc first.data
    let guess := pyStrip (String.mk (stripAccAll first.data))
    ((if guess == "" then none else some guess), acc)

/-! ### Line-oriented ("normal") parser -/

/-- `_RE_NORMAL_HOST` (`^Nmap scan report for (.+)$`) applied with
`re.match`: the announced text, which must be non-empty. -/
def normalHostMatch (line : String) : Option String :=
  let pre := "Nmap scan report for ".data
  if line.data.take pre.length == pre && pre.length < line.data.length then
    some (String.mk (line.data.drop pre.length))
  else none

/-- `re.search(r"\(([^)]+)\)$", raw)`: the contents of a trailing
parenthesised token — the leftmost `(` after which no `)` occurs before the
final one, with non-empty contents. -/
def parenMatch (raw : String) : Option String :=
  match raw.data.reverse with
  | ')' :: rb =>
    match (rb.takeWhile (fun c => c != ')')).reverse.dropWhile (fun c => c != '(') with
    | '(' :: mid => if mid.isEmpty then none else some (String.mk mid)
    | _ => none
  | _ => none

/-- `raw[:raw.rfind("(")]`: the text before the last `(` (Python's `rfind`
yields `-1`, hence `raw[:-1]`, when no `(` occurs — unreachable after a
successful `parenMatch`). -/
def takeBeforeLastParen (raw : String) : String :=
  match raw.data.reverse.dropWhile (fun c => c != '(') with
  | '(' :: pre => String.mk pre.reverse
  | _ => String.mk raw.data.dropLast

/-- `re.match(r"^\d{1,3}(\.\d{1,3}){3}$", raw)`: exactly four dot-separated
groups of one to three digits. -/
def isDottedQuad (s : String) : Bool :=
  match pySplitOn '.' s with
  | [a, b, c, d] =>
      [a, b, c, d].all (fun g => 1 ≤ g.length && g.length ≤ 3 && g.data.all Char.isDigit)
  | _ => false

/-- The host-announcement handler of `parse_nmap_normal` (lines 187–197 of
the source): split the announced text into name/address. -/
def hostFromRaw (raw : String) : Host :=
  match parenMatch raw with
  | some inner =>
      { ip := pyStrip inner, name := some (pyStrip (takeBeforeLastParen raw)), ports := [] }
  | none =>
      if isDottedQuad raw then { ip := raw, ports := [] }
      else { ip := raw, name := some raw, ports := [] }

/-- Case-insensitive prefix test against a lowercase ASCII pattern (the
effect of `re.IGNORECASE` on a literal). -/
def ciIsPre (pat : String) (l : List Char) : Bool :=
  (l.take pat.length).map Char.toLower == pat.data

/-- The trailing `\s*(.+)$` of the OS-related line patterns, applied to the
text after the literal prefix: greedy whitespace, then a non-empty group
(which degenerates to the final whitespace character when nothing else is
left, because `.` also matches whitespace). -/
def reRestGroup (r : List Char) : Option (List Char) :=
  if r.isEmpty then none
  else
    let rest := r.dropWhile isPySpace
    if rest.isEmpty then
      match r.getLast? with
      | some c => some [c]
      | none => none
    else some rest

/-- `_RE_OS_GUESSES` (`^(Aggressive OS guesses|OS guesses):\s*(.+)$`, case
insensitive, `re.match`): group 2. -/
def osGuessesMatch (line : String) : Option String :=
  let cs := line.data
  if ciIsPre "aggressive os guesses:" cs then (reRestGroup (cs.drop 22)).map String.mk
  else if ciIsPre "os guesses:" cs then (reRestGroup (cs.drop 11)).map String.mk
  else none

/-- `_RE_OS_DETAILS` (`^OS details:\s*(.+)$`, case insensitive): group 1. -/
def osDetailsMatch (line : String) : Option String :=
  let cs := line.data
  if ciIsPre "os details:" cs then (reRestGroup (cs.drop 11)).map String.mk else none

/-- `_RE_RUNNING` (`^Running:\s*(.+)$`, case insensitive): group 1. -/
def runningMatch (line : String) : Option String :=
  let cs := line.data
  if ciIsPre "running:" cs then (reRestGroup (cs.drop 8)).map String.mk else none

/-- `_RE_SERVICE_INFO` (`^Service Info:\s*(.+)$`, case insensitive):
group 1. -/
def serviceInfoMatch (line : String) : Option String :=
  let cs := line.data
  if ciIsPre "service info:" cs then (reRestGroup (cs.drop 13)).map String.mk else none

/-- Python's `\w` over ASCII text. -/
def isWordChar (c : Char) : Bool :=
  c.isAlphanum || c = '_'

/-- Generic engine for `re.search(r"\b<pat>...", s, re.IGNORECASE)`: scan
left to right, requiring a word boundary before the literal `pat`, and hand
the remainder to `handler` for the rest of the pattern; on failure continue
at the next position. -/
def searchCi (pat : String) (handler : List Char → Option (List Char)) :
    Option Char → List Char → Option (List Char)
  | _prev, [] => none
  | prev, c :: cs =>
    let boundary := match prev with | none => true | some p => !isWordChar p
    if boundary && ciIsPre pat (c :: cs) then
      match handler ((c :: cs).drop pat.length) with
      | some g => some g
      | none => searchCi pat handler (some c) cs
    else searchCi pat handler (some c) cs

/-- Continuation `\s*([^;]+)` of the Service-Info OS search (no anchor):
greedy whitespace, then a non-empty semicolon-free group; when only
whitespace remains (or a `;` follows at once) backtracking yields the last
whitespace character as the group. -/
def svcOsAt (r : List Char) : Option (List Char) :=
  let w := r.takeWhile isPySpace
  let rest := r.drop w.length
  match rest with
  | [] =>
    match w.getLast? with
    | some c => some [c]
    | none => none
  | c :: _ =>
    if c = ';' then
      match w.getLast? with
      | some d => some [d]
      | none => none
    else some (rest.takeWhile (fun x => x != ';'))

/-- `_RE_PORT_LINE`
(`^(?P<port>\d+)\/(?P<proto>tcp|udp)\s+open\s+(?P<service>\S+)(?P<rest>.*)$`,
case insensitive, `re.match`), already assembled into the port descriptor
`f"{port}/{proto} {service}"` plus the stripped rest when non-empty. -/
def portLineMatch (line : String) : Option String :=
  let cs := line.data
  let port := cs.takeWhile Char.isDigit
  if port.isEmpty then none
  else
    match cs.drop port.length with
    | '/' :: r1 =>
      if ciIsPre "tcp" r1 || ciIsPre "udp" r1 then
        let proto := r1.take 3
        let r2 := r1.drop 3
        let w1 := r2.takeWhile isPySpace
        if w1.isEmpty then none
        else
          let r3 := r2.drop w1.length
          if ciIsPre "open" r3 then
            let r4 := r3.drop 4
            let w2 := r4.takeWhile isPySpace
            if w2.isEmpty then none
            else
              let r5 := r4.drop w2.length
              let service := r5.takeWhile (fun c => !isPySpace c)
              if service.isEmpty then none
              else
                let restS := pyStrip (String.mk (r5.drop service.length))
                some (String.mk port ++ "/" ++ String.mk proto ++ " " ++ String.mk service ++
                      (if restS != "" then " " ++ restS else ""))
          else none
      else none
    | _ => none

/-- One iteration of the `parse_nmap_normal` line loop, threading the
`(current, hosts)` accumulator (design note §9 of the spec): a
host-announcement line flushes `current`; otherwise, with a current host,
the OS-line patterns are tried (Service Info not short-circuiting port
parsing) and an open-port line appends its descriptor. -/
def normalStep (st : Option Host × List Host) (line : String) : Option Host × List Host :=
  match normalHostMatch line with
  | some g =>
    let hosts := match st.1 with | some c => st.2 ++ [c] | none => st.2
    (some (hostFromRaw (pyStrip g)), hosts)
  | none =>
    match st.1 with
    | none => st
    | some cur =>
      match osGuessesMatch line with
      | some s2 =>
          let ga := _parse_first_guess_with_accuracy s2
          (some (_maybe_set_os cur ga.1 ga.2), st.2)
      | none =>
        match osDetailsMatch line with
        | some s1 => (some (_maybe_set_os cur (some (pyStrip s1)) none), st.2)
        | none =>
          match runningMatch line with
          | some s1 => (some (_maybe_set_os cur (some (pyStrip s1)) none), st.2)
          | none =>
            let cur2 :=
              match serviceInfoMatch line with
              | some blob =>
                match searchCi "os:" svcOsAt none blob.data with
                | some v => _maybe_set_os cur (some (pyStrip (String.mk v))) none
                | none => cur
              | none => cur
            match portLineMatch line with
            | some entry => (some { cur2 with ports := cur2.ports ++ [entry] }, st.2)
            | none => (some cur2, st.2)

/-- `parse_nmap_normal`: fold the line loop over the input's lines
(`str.splitlines` modelled by splitting on `"\n"`; a trailing empty line
matches nothing), flush the final in-progress host, de-duplicate each
host's ports preserving first-seen order, and merge. -/
def parse_nmap_normal (text : String) : List Host :=
  let res := (pySplitOn '\n' text).foldl normalStep (none, [])
  let hosts := match res.1 with | some c => res.2 ++ [c] | none => res.2
  let hosts := hosts.map (fun h => { h with ports := addNewPorts [] h.ports })
  merge_hosts_by_ip hosts

/-! ### Grepable parser -/

/-- Continuation `\)\s+Ports:\s+(?P<ports>.*)$` of the grepable host
pattern, applied to the characters after a candidate closing paren: the
`ports` group when it matches. -/
def grepPortsTail (cs : List Char) : Option (List Char) :=
  let w1 := cs.takeWhile isPySpace
  if w1.isEmpty then none
  else
    let r1 := cs.drop w1.length
    if r1.take 6 == "Ports:".data then
      let r2 := r1.drop 6
      let w2 := r2.takeWhile isPySpace
      if w2.isEmpty then none else some (r2.drop w2.length)
    else none

/-- Lazy `(?P<name>.*?)\)` scan: accumulate name characters until the
earliest `)` whose tail matches the `Ports:` continuation. -/
def grepNamePorts : List Char → List Char → Option (String × String)
  | _acc, [] => none
  | acc, c :: cs =>
    if c = ')' then
      match grepPortsTail cs with
      | some ports => some (String.mk acc.reverse, String.mk ports)
      | none => grepNamePorts (c :: acc) cs
    else grepNamePorts (c :: acc) cs

/-- `_RE_GREPPABLE_HOST`
(`^Host:\s+(?P<ip>\S+)\s+\((?P<name>.*?)\)\s+Ports:\s+(?P<ports>.*)$`,
`re.match`): the `(ip, name, ports)` groups. -/
def grepHostMatch (line : String) : Option (String × String × String) :=
  let cs := line.data
  if cs.take 5 == "Host:".data then
    let r1 := cs.drop 5
    let w1 := r1.takeWhile isPySpace
    if w1.isEmpty then none
    else
      let r2 := r1.drop w1.length
      let ip := r2.takeWhile (fun c => !isPySpace c)
      if ip.isEmpty then none
      else
        let r3 := r2.drop ip.length
        let w2 := r3.takeWhile isPySpace
        if w2.isEmpty then none
        else
          match r3.drop w2.length with
          | '(' :: r4 =>
            match grepNamePorts [] r4 with
            | some np => some (String.mk ip, np.1, np.2)
            | none => none
          | _ => none
  else none

/-- Continuation `\s*([^\t]+)$` of the grepable OS search: greedy
whitespace then a non-empty tab-free group reaching the end of the line
(degenerating to the final whitespace character when nothing else is left
and it is not a tab). -/
def grepOsAt (r : List Char) : Option (List Char) :=
  let w := r.takeWhile isPySpace
  let rest := r.drop w.length
  if rest.isEmpty then
    match w.getLast? with
    | some c => if c = '\t' then none else some [c]
    | none => none
  else
    if rest.contains '\t' then none else some rest

/-- The per-line body of `parse_nmap_grepable`: strip the line, match the
host pattern, extract a trailing `OS:` fragment, and keep the open entries
of the comma-separated, slash-structured port list. -/
def grepLineHost (line : String) : Option Host :=
  let line := pyStrip line
  match grepHostMatch line with
  | none => none
  | some m =>
    let ip := pyStrip m.1
    let nameS := pyStrip m.2.1
    let name := if nameS == "" then none else some nameS
    let ports_blob := pyStrip m.2.2
    let osPair :=
      match searchCi "os:" grepOsAt none line.data with
      | some g => _parse_first_guess_with_accuracy (pyStrip (String.mk g))
      | none => ((none : Option String), (none : Option Int))
    let ports := (pySplitOn ',' ports_blob).foldl (fun acc chunk =>
        let chunk := pyStrip chunk
        if chunk == "" then acc
        else
          let parts := pySplitOn '/' chunk
          if parts.length < 5 then acc
          else
            let port := parts.headD ""
            let state := parts.getD 1 ""
            let proto := parts.getD 2 ""
            let service := if parts.getD 4 "" == "" then "unknown" else parts.getD 4 ""
            if state != "open" then acc
            else acc ++ [port ++ "/" ++ proto ++ " " ++ service]) []
    some { ip := ip, name := name, ports := ports, os_guess := osPair.1,
           os_accuracy := osPair.2 }

/-- `parse_nmap_grepable`: one host per matching line, then merge. -/
def parse_nmap_grepable (text : String) : List Host :=
  merge_hosts_by_ip ((pySplitOn '\n' text).filterMap grepLineHost)

/-! ### Format detection and top-level dispatch -/

/-- `_looks_like_xml`: the left-stripped text starts with an XML
declaration or the scan-report root element. -/
def _looks_like_xml (text : String) : Bool :=
  let s := (pyLstrip text).data
  s.take 5 == "<?xml".data || s.take 8 == "<nmaprun".data

/-- One anchored attempt of `Host:\s+\S+` at a `^` position of the
multiline search: the literal `Host:`, one or more whitespace characters,
then a non-whitespace character.  `re.MULTILINE` only changes `^`, not
`\s`, so the whitespace run may contain newlines and the match may run past
the end of the anchoring line. -/
def looseHostAt (cs : List Char) : Bool :=
  cs.take 5 == "Host:".data &&
    (let r := cs.drop 5
     let w := r.takeWhile isPySpace
     !w.isEmpty && w.length < r.length)

/-- The position scan of `re.search(r"^Host:\s+\S+", text, re.MULTILINE)`:
`^` matches at the start of the text and right after every `\n` (and
nowhere else), and the anchored attempt runs on the whole remaining
suffix. -/
def looseHostScan : Bool → List Char → Bool
  | _, [] => false
  | atStart, c :: cs =>
    (atStart && looseHostAt (c :: cs)) || looseHostScan (c == '\n') cs

/-- `_looks_like_grepable`: the multiline loose `Host:` search fires
somewhere in the text. -/
def _looks_like_grepable (text : String) : Bool :=
  looseHostScan true text.data

/-- `parse_nmap`: normalise line endings, dispatch on the detectors, and
fall back from an empty grepable parse to the normal parser.  The XML
branch of the source calls `parse_nmap_xml` on the reader's element tree;
string-level XML reading is outside the embedding, so that branch is
exposed through the `xmlCase` argument (the tree-level XML parser is
`parse_nmap_xml` below). -/
def parse_nmapWith (xmlCase : String → List Host) (text : String) : List Host :=
  let t := pyReplaceCrLf text
  if _looks_like_xml t then xmlCase t
  else if _looks_like_grepable t then
    match parse_nmap_grepable t with
    | [] => parse_nmap_normal t
    | h :: hs => h :: hs
  else parse_nmap_normal t

/-! ### XML parser (over the reader's element tree) -/

/-- An XML element as delivered by `xml.etree.ElementTree`: tag, attributes
in document order, child elements. -/
inductive XmlEl where
  | mk (tag : String) (attrs : List (String × String)) (children : List XmlEl)

/-- The element's tag. -/
def XmlEl.tag : XmlEl → String
  | .mk t _ _ => t

/-- The element's attribute list. -/
def XmlEl.attrs : XmlEl → List (String × String)
  | .mk _ a _ => a

/-- The element's children. -/
def XmlEl.children : XmlEl → List XmlEl
  | .mk _ _ c => c

/-- `Element.get`: attribute lookup. -/
def XmlEl.attr (e : XmlEl) (k : String) : Option String :=
  (e.attrs.find? (fun p => p.1 == k)).map (fun p => p.2)

/-- `Element.findall` with a plain tag path: matching direct children. -/
def XmlEl.findall (e : XmlEl) (t : String) : List XmlEl :=
  e.children.filter (fun c => c.tag == t)

/-- `Element.find` with a plain tag path: first matching direct child. -/
def XmlEl.findOne (e : XmlEl) (t : String) : Option XmlEl :=
  (e.children.filter (fun c => c.tag == t)).head?

/-- `int(s)` wrapped in the source's `try/except ValueError` defaulting to
`0`: optional sign and a non-empty ASCII digit run after stripping
whitespace (exotic forms such as underscores are not modelled). -/
def pyIntOr0 (s : String) : Int :=
  let t := (pyStrip s).data
  let signed : Bool × List Char :=
    match t with
    | '-' :: rest => (true, rest)
    | '+' :: rest => (false, rest)
    | rest => (false, rest)
  if signed.2.isEmpty || !signed.2.all Char.isDigit then 0
  else if signed.1 then -(digitsToNat signed.2 : Int) else (digitsToNat signed.2 : Int)

/-- Parsed accuracy of one `osmatch` candidate
(`int(m.get("accuracy", "0"))`, unparsable counting as `0`). -/
def accOf (m : XmlEl) : Int :=
  pyIntOr0 ((m.attr "accuracy").getD "0")

/-- The running-best loop over `osmatch` candidates: `best`/`best_acc`
starting from `(None, -1)`, updating on strictly greater accuracy. -/
def bestAux (st : Option XmlEl × Int) (ms : List XmlEl) : Option XmlEl × Int :=
  ms.foldl (fun st m => if st.2 < accOf m then (some m, accOf m) else st) st

/-- The stripped-name-or-`None` post-processing
(`(best.get("name") or "").strip() or None`). -/
def nameOf (m : XmlEl) : Option String :=
  let s := pyStrip ((m.attr "name").getD "")
  if s == "" then none else some s

/-- OS selection of `parse_nmap_xml` (lines 320–335 of the source). -/
def bestOsMatch (ms : List XmlEl) : Option String × Option Int :=
  match bestAux (none, -1) ms with
  | (none, _) => (none, none)
  | (some b, bacc) => (nameOf b, if 0 ≤ bacc then some bacc else none)

/-- Port extraction for one `port` element: open state required, service
name defaulting to `unknown`, truthy product/version/extrainfo appended,
the whole descriptor stripped. -/
def portEntry (p : XmlEl) : Option String :=
  match p.findOne "state" with
  | none => none
  | some st =>
    if st.attr "state" ≠ some "open" then none
    else
      let proto := match p.attr "protocol" with
        | some s => if s == "" then "tcp" else s
        | none => "tcp"
      let portid := match p.attr "portid" with
        | some s => if s == "" then "?" else s
        | none => "?"
      let svc := p.findOne "service"
      let svc_name := match svc with
        | some s => match s.attr "name" with
          | some n => if n == "" then "unknown" else n
          | none => "unknown"
        | none => "unknown"
      let extra := match svc with
        | some s => (["product", "version", "extrainfo"].filterMap (fun k =>
            match s.attr k with
            | some v => if v == "" then none else some v
            | none => none))
        | none => []
      let tail := if extra.isEmpty then "" else " " ++ String.intercalate " " extra
      some (pyStrip (portid ++ "/" ++ proto ++ " " ++ svc_name ++ tail))

/-- The per-`host`-element body of `parse_nmap_xml`: skip a host whose
status is present and not `up`; take the first `ipv4`/`ipv6` address child
(its `addr`, falsy meaning skip); first hostname; best OS match; open
ports. -/
def xmlHostRecord (h : XmlEl) : Option Host :=
  let statusSkip :=
    match h.findOne "status" with
    | some st => match st.attr "state" with
      | some s => s != "up"
      | none => false
    | none => false
  if statusSkip then none
  else
    let ipOpt := ((h.findall "address").find? (fun a =>
        a.attr "addrtype" == some "ipv4" || a.attr "addrtype" == some "ipv6")).bind
      (fun a => a.attr "addr")
    match ipOpt with
    | none => none
    | some ip =>
      if ip == "" then none
      else
        let name := match h.findOne "hostnames" with
          | some hn => match (hn.findall "hostname").head? with
            | some first => first.attr "name"
            | none => none
          | none => none
        let osPair := match h.findOne "os" with
          | some os_el => bestOsMatch (os_el.findall "osmatch")
          | none => ((none : Option String), (none : Option Int))
        let ports := match h.findOne "ports" with
          | some pe => (pe.findall "port").filterMap portEntry
          | none => []
        some { ip := ip, name := name, ports := ports, os_guess := osPair.1,
               os_accuracy := osPair.2 }

/-- `parse_nmap_xml` on the document root: collect host records and
merge. -/
def parse_nmap_xml (root : XmlEl) : List Host :=
  merge_hosts_by_ip ((root.findall "host").filterMap xmlHostRecord)

/-- The `osmatch` candidate list of Scenario A of the spec: accuracies 80
and 92, the 92 candidate second. -/
def demoOsMatches : List XmlEl :=
  [XmlEl.mk "osmatch" [("name", "OldOS"), ("accuracy", "80")] [],
   XmlEl.mk "osmatch" [("name", "NewOS"), ("accuracy", "92")] []]

/-- Scenario A of the spec as an element tree: two `up` hosts, the first
with three open ports and the two-candidate OS match list. -/
def xmlDemo : XmlEl :=
  XmlEl.mk "nmaprun" []
    [XmlEl.mk "host" []
      [XmlEl.mk "status" [("state", "up")] [],
       XmlEl.mk "address" [("addrtype", "ipv4"), ("addr", "10.0.0.1")] [],
       XmlEl.mk "ports" []
         [XmlEl.mk "port" [("protocol", "tcp"), ("portid", "22")]
            [XmlEl.mk "state" [("state", "open")] [],
             XmlEl.mk "service" [("name", "ssh")] []],
          XmlEl.mk "port" [("protocol", "tcp"), ("portid", "80")]
            [XmlEl.mk "state" [("state", "open")] [],
             XmlEl.mk "service" [("name", "http")] []],
          XmlEl.mk "port" [("protocol", "tcp"), ("portid", "443")]
            [XmlEl.mk "state" [("state", "open")] [],
             XmlEl.mk "service" [("name", "https")] []]],
       XmlEl.mk "os" [] demoOsMatches],
     XmlEl.mk "host" []
      [XmlEl.mk "status" [("state", "up")] [],
       XmlEl.mk "address" [("addrtype", "ipv4"), ("addr", "10.0.0.2")] []]]

/-- A `host` element with an `up` status, a hostname, an open port and an
OS match, but whose only address child is a MAC address. -/
def demoNoAddrHost : XmlEl :=
  XmlEl.mk "host" []
    [XmlEl.mk "status" [("state", "up")] [],
     XmlEl.mk "address" [("addrtype", "mac"), ("addr", "AA:BB:CC:DD:EE:FF")] [],
     XmlEl.mk "hostnames" [] [XmlEl.mk "hostname" [("name", "ghost.local")] []],
     XmlEl.mk "ports" []
       [XmlEl.mk "port" [("protocol", "tcp"), ("portid", "80")]
          [XmlEl.mk "state" [("state", "open")] []]],
     XmlEl.mk "os" [] [XmlEl.mk "osmatch" [("name", "Linux"), ("accuracy", "95")] []]]

/-! ### Diagram builder (`build_drawio`) -/

/-- Role of one emitted `mxCell`: the two bookkeeping root cells (ids `0`
and `1`), a hub-to-host edge with its `source`/`target` ids, the branding
vertex, the hub vertex, or the host vertex for list index `idx`. -/
inductive CellKind where
  | structural
  | edge (source target : Nat)
  | branding
  | hub
  | host (idx : Nat)
deriving DecidableEq, Repr

/-- One emitted `mxCell` with its id and (for vertices) the integer
geometry written into its `mxGeometry` child; an edge's geometry is
relative and carries no coordinates. -/
structure DCell where
  id : Nat
  kind : CellKind
  x : Int := 0
  y : Int := 0
  w : Int := 0
  h : Int := 0
deriving DecidableEq, Repr

/-- Discriminator: is this cell a hub-to-host edge? -/
def CellKind.isEdge : CellKind → Bool
  | .edge _ _ => true
  | _ => false

/-- Discriminator: is this cell a host vertex? -/
def CellKind.isHost : CellKind → Bool
  | .host _ => true
  | _ => false

/-- Python `int()` on a float/rational: truncation toward zero. -/
def pyTrunc (q : ℚ) : Int :=
  if 0 ≤ q then ⌊q⌋ else ⌈q⌉

/-- The `<root>` children of the document built by `build_drawio`, in
emission order: the two bookkeeping cells, all hub-to-host edges (hub mode
only), the branding vertex, the hub vertex (hub mode only), then every host
vertex in list order.  Ids follow the source's `next_id` counter: branding
`2`, then the hub (`3`, reserved only in hub mode), then the host ids in
the geometry pre-pass, then the edge ids during edge emission.  Label and
style strings are carried by `Host.display_label` / `Host.tooltip_text`
and the style table, which the claims under verification do not touch. -/
def build_drawio_cells (hosts : List Host) (add_network_node : Bool) : List DCell :=
  let n := hosts.length
  let lay := compute_layout n
  let cols := lay.1
  let node_w := lay.2.2.1
  let node_h := lay.2.2.2.1
  let h_gap := lay.2.2.2.2.1
  let v_gap := lay.2.2.2.2.2
  let margin : ℚ := 50
  let width : ℚ := margin * 2 + (cols : ℚ) * node_w + ((cols : ℚ) - 1) * h_gap
  let networkId : Nat := 3
  let hostId : Nat → Nat := fun i => (if add_network_node then 4 else 3) + i
  let start_y : ℚ := margin + (if add_network_node then (90 : ℚ) else 0) + 40
  let edges : List DCell :=
    if add_network_node then
      (List.range n).map (fun i =>
        { id := 4 + n + i, kind := .edge networkId (hostId i) })
    else []
  let branding : DCell := { id := 2, kind := .branding, x := 10, y := 10, w := 180, h := 101 }
  let hubCells : List DCell :=
    if add_network_node then
      [{ id := networkId, kind := .hub, x := pyTrunc (width / 2 - 45), y := pyTrunc margin,
         w := 90, h := 60 }]
    else []
  let hostCells : List DCell :=
    (List.range n).map (fun i =>
      { id := hostId i, kind := .host i,
        x := pyTrunc (margin + ((i % cols : Nat) : ℚ) * (node_w + h_gap)),
        y := pyTrunc (start_y + ((i / cols : Nat) : ℚ) * (node_h + v_gap)),
        w := pyTrunc node_w, h := pyTrunc node_h })
  [{ id := 0, kind := .structural }, { id := 1, kind := .structural }] ++
    edges ++ [branding] ++ hubCells ++ hostCells

/-! ### Spec-side reference definitions (for refinement statements) -/

/-- Spec-side: the sub-list of first occurrences of `l`, skipping elements
already in `seen` ("one record per distinct input address, in first-seen
order"). -/
def firstSeenFrom (seen : List String) : List String → List String
  | [] => []
  | a :: l => if a ∈ seen then firstSeenFrom seen l else a :: firstSeenFrom (a :: seen) l

/-- Spec-side: the scale step function of §4.5 of the spec, written as the
spec words it ("1.0 for n ≤ 30; 0.85 for 30 < n ≤ 80; 0.7 for
80 < n ≤ 150; 0.6 for n > 150"). -/
def spec_scale (n : Nat) : ℚ :=
  if n ≤ 30 then 1 else if n ≤ 80 then 0.85 else if n ≤ 150 then 0.7 else 0.6

/-! ### Lemmas about the merge engine -/

theorem mergeInto_ip (e h : Host) : (mergeInto e h).ip = e.ip := rfl

theorem any_ip_iff (acc : List Host) (h : Host) :
    (acc.any (fun e => e.ip == h.ip) = true) ↔ h.ip ∈ acc.map Host.ip := by
  simp only [List.any_eq_true, List.mem_map, beq_iff_eq]

theorem mergeStep_map_ip_mem (acc : List Host) (h : Host)
    (hm : h.ip ∈ acc.map Host.ip) :
    (mergeStep acc h).map Host.ip = acc.map Host.ip := by
  unfold mergeStep
  rw [if_pos ((any_ip_iff acc h).mpr hm), List.map_map]
  apply List.map_congr_left
  intro e _
  by_cases hc : e.ip == h.ip
  · simp [Function.comp, hc, mergeInto_ip]
  · simp [Function.comp, hc]

theorem mergeStep_map_ip_notmem (acc : List Host) (h : Host)
    (hm : h.ip ∉ acc.map Host.ip) :
    mergeStep acc h = acc ++ [h] := by
  unfold mergeStep
  rw [if_neg]
  intro hc
  exact hm ((any_ip_iff acc h).mp hc)

theorem firstSeenFrom_congr (l : List String) : ∀ (s₁ s₂ : List String),
    (∀ x, x ∈ s₁ ↔ x ∈ s₂) → firstSeenFrom s₁ l = firstSeenFrom s₂ l := by
  induction l with
  | nil => intro s₁ s₂ _; rfl
  | cons a l ih =>
    intro s₁ s₂ hiff
    simp only [firstSeenFrom]
    by_cases hm : a ∈ s₁
    · rw [if_pos hm, if_pos ((hiff a).mp hm), ih _ _ hiff]
    · rw [if_neg hm, if_neg (fun hc => hm ((hiff a).mpr hc))]
      congr 1
      apply ih
      intro x
      simp only [List.mem_cons]
      exact or_congr Iff.rfl (hiff x)

theorem mem_firstSeenFrom {x : String} : ∀ (l seen : List String),
    x ∈ firstSeenFrom seen l ↔ x ∈ l ∧ x ∉ seen := by
  intro l
  induction l with
  | nil => intro seen; simp [firstSeenFrom]
  | cons a l ih =>
    intro seen
    simp only [firstSeenFrom]
    by_cases hm : a ∈ seen
    · rw [if_pos hm, ih]
      simp only [List.mem_cons]
      constructor
      · rintro ⟨h1, h2⟩; exact ⟨Or.inr h1, h2⟩
      · rintro ⟨h1 | h1, h2⟩
        · exact absurd (h1 ▸ hm) h2
        · exact ⟨h1, h2⟩
    · rw [if_neg hm]
      simp only [List.mem_cons, ih]
      constructor
      · rintro (rfl | ⟨h1, h2⟩)
        · exact ⟨Or.inl rfl, hm⟩
        · exact ⟨Or.inr h1, fun hc => h2 (Or.inr hc)⟩
      · rintro ⟨rfl | h1, h2⟩
        · exact Or.inl rfl
        · by_cases hxa : x = a
          · exact Or.inl hxa
          · exact Or.inr ⟨h1, fun hc => hc.elim hxa h2⟩

theorem firstSeenFrom_nodup : ∀ (l seen : List String), (firstSeenFrom seen l).Nodup := by
  intro l
  induction l with
  | nil => intro seen; simp [firstSeenFrom]
  | cons a l ih =>
    intro seen
    simp only [firstSeenFrom]
    by_cases hm : a ∈ seen
    · rw [if_pos hm]; exact ih seen
    · rw [if_neg hm]
      refine List.Nodup.cons ?_ (ih (a :: seen))
      intro hc
      exact ((mem_firstSeenFrom l (a :: seen)).mp hc).2 (List.mem_cons_self a seen)

theorem foldl_mergeStep_map_ip : ∀ (hosts acc : List Host),
    (hosts.foldl mergeStep acc).map Host.ip =
      acc.map Host.ip ++ firstSeenFrom (acc.map Host.ip) (hosts.map Host.ip) := by
  intro hosts
  induction hosts with
  | nil => intro acc; simp [firstSeenFrom]
  | cons h hs ih =>
    intro acc
    simp only [List.foldl_cons, List.map_cons, firstSeenFrom]
    by_cases hm : h.ip ∈ acc.map Host.ip
    · rw [if_pos hm]
      have hstep := mergeStep_map_ip_mem acc h hm
      rw [ih (mergeStep acc h), hstep]
    · rw [if_neg hm]
      rw [mergeStep_map_ip_notmem acc h hm, ih (acc ++ [h])]
      have hmap : (acc ++ [h]).map Host.ip = acc.map Host.ip ++ [h.ip] := by simp
      rw [hmap]
      rw [firstSeenFrom_congr (hs.map Host.ip) (acc.map Host.ip ++ [h.ip])
            (h.ip :: acc.map Host.ip) (by intro x; simp [or_comm])]
      simp

theorem merge_map_ip (hosts : List Host) :
    (merge_hosts_by_ip hosts).map Host.ip = firstSeenFrom [] (hosts.map Host.ip) := by
  unfold merge_hosts_by_ip
  rw [foldl_mergeStep_map_ip hosts []]
  simp

theorem merge_map_ip_nodup (hosts : List Host) :
    ((merge_hosts_by_ip hosts).map Host.ip).Nodup := by
  rw [merge_map_ip]
  exact firstSeenFrom_nodup _ _

theorem foldl_mergeStep_fresh : ∀ (l acc : List Host),
    (∀ x ∈ l, x.ip ∉ acc.map Host.ip) → (l.map Host.ip).Nodup →
    l.foldl mergeStep acc = acc ++ l := by
  intro l
  induction l with
  | nil => intro acc _ _; simp
  | cons h hs ih =>
    intro acc hfresh hnd
    simp only [List.foldl_cons]
    rw [mergeStep_map_ip_notmem acc h (hfresh h (List.mem_cons_self h hs))]
    rw [ih (acc ++ [h]) ?_ ?_]
    · simp
    · intro x hx
      simp only [List.map_append, List.map_cons, List.map_nil, List.mem_append,
        List.mem_singleton]
      rintro (hc | hc)
      · exact hfresh x (List.mem_cons_of_mem _ hx) hc
      · simp only [List.map_cons, List.nodup_cons] at hnd
        exact hnd.1 (hc ▸ List.mem_map_of_mem Host.ip hx)
    · simp only [List.map_cons, List.nodup_cons] at hnd
      exact hnd.2

theorem merge_of_nodup (l : List Host) (hnd : (l.map Host.ip).Nodup) :
    merge_hosts_by_ip l = l := by
  unfold merge_hosts_by_ip
  rw [foldl_mergeStep_fresh l [] (by simp) hnd]
  simp

/-! ### Lemmas about port de-duplication -/

theorem addNewPorts_cons (ps : List String) (p : String) (new : List String) :
    addNewPorts ps (p :: new) = addNewPorts (if p ∈ ps then ps else ps ++ [p]) new := rfl

theorem addNewPorts_nodup : ∀ (new ps : List String), ps.Nodup → (addNewPorts ps new).Nodup := by
  intro new
  induction new with
  | nil => intro ps h; exact h
  | cons p new ih =>
    intro ps h
    rw [addNewPorts_cons]
    by_cases hm : p ∈ ps
    · rw [if_pos hm]; exact ih ps h
    · rw [if_neg hm]
      refine ih _ ?_
      simp [List.nodup_append, h, hm]

theorem mergeInto_ports_nodup (e h : Host) (he : e.ports.Nodup) :
    (mergeInto e h).ports.Nodup :=
  addNewPorts_nodup h.ports e.ports he

theorem foldl_mergeStep_ports_nodup : ∀ (l acc : List Host),
    (∀ g ∈ acc, g.ports.Nodup) → (∀ x ∈ l, x.ports.Nodup) →
    ∀ g ∈ l.foldl mergeStep acc, g.ports.Nodup := by
  intro l
  induction l with
  | nil => intro acc hacc _ g hg; exact hacc g hg
  | cons h hs ih =>
    intro acc hacc hl g hg
    simp only [List.foldl_cons] at hg
    refine ih (mergeStep acc h) ?_ (fun x hx => hl x (List.mem_cons_of_mem _ hx)) g hg
    intro g' hg'
    unfold mergeStep at hg'
    split at hg'
    · rcases List.mem_map.mp hg' with ⟨e, he, rfl⟩
      by_cases hc : e.ip == h.ip
      · simpa [hc] using mergeInto_ports_nodup e h (hacc e he)
      · simpa [hc] using hacc e he
    · rcases List.mem_append.mp hg' with he | he
      · exact hacc g' he
      · rw [List.mem_singleton] at he
        exact he.symm ▸ hl h (List.mem_cons_self _ _)

theorem merge_ports_nodup (hosts : List Host) (hh : ∀ x ∈ hosts, x.ports.Nodup) :
    ∀ g ∈ merge_hosts_by_ip hosts, g.ports.Nodup :=
  foldl_mergeStep_ports_nodup hosts [] (by simp) hh

/-! ### Lemmas about the OS-guess update rule -/

theorem truthy_isSome {g : Option String} (h : truthy g = true) : g.isSome = true := by
  cases g
  · simp [truthy] at h
  · rfl

theorem maybe_set_os_acc_step (cur : Host) (g : Option String) (a : Option Int) (x : Int)
    (hg : cur.os_guess.isSome = true) (hx : cur.os_accuracy = some x) :
    (_maybe_set_os cur g a).os_guess.isSome = true ∧
    ∃ y, (_maybe_set_os cur g a).os_accuracy = some y ∧ x ≤ y := by
  rcases hcur : cur.os_guess with _ | s
  · rw [hcur] at hg; simp at hg
  · by_cases ht : truthy g
    · rcases a with _ | av
      · simp only [_maybe_set_os, ht, hcur]
        exact ⟨hg, x, hx, le_refl x⟩
      · by_cases hlt : x < av
        · simp only [_maybe_set_os, ht, hcur, hx]
          simp only [Bool.true_eq_false, if_false, hlt, if_true]
          exact ⟨truthy_isSome ht, av, rfl, le_of_lt hlt⟩
        · simp only [_maybe_set_os, ht, hcur, hx]
          simp only [Bool.true_eq_false, if_false, hlt, if_false]
          exact ⟨hg, x, hx, le_refl x⟩
    · have ht' : truthy g = false := by
        cases hb : truthy g
        · rfl
        · exact absurd hb ht
      simp only [_maybe_set_os, ht', if_pos rfl]
      exact ⟨hg, x, hx, le_refl x⟩

theorem osUpdates_mono : ∀ (us : List (Option String × Option Int)) (h : Host) (x : Int),
    h.os_guess.isSome = true → h.os_accuracy = some x →
    (osUpdates h us).os_guess.isSome = true ∧
    ∃ y, (osUpdates h us).os_accuracy = some y ∧ x ≤ y := by
  intro us
  induction us with
  | nil => intro h x hg hx; exact ⟨hg, x, hx, le_refl x⟩
  | cons u us ih =>
    intro h x hg hx
    rcases maybe_set_os_acc_step h u.1 u.2 x hg hx with ⟨hg', y, hy, hxy⟩
    rcases ih (_maybe_set_os h u.1 u.2) y hg' hy with ⟨hg'', z, hz, hyz⟩
    refine ⟨?_, z, ?_, le_trans hxy hyz⟩
    · simpa [osUpdates] using hg''
    · simpa [osUpdates] using hz

theorem maybe_set_os_reject (cur : Host) (g : Option String) (a : Option Int)
    (hg : cur.os_guess.isSome = true)
    (hno : ¬(a.isSome = true ∧ (cur.os_accuracy = none ∨
        ∃ av bv, a = some av ∧ cur.os_accuracy = some bv ∧ bv < av))) :
    _maybe_set_os cur g a = cur := by
  rcases hcur : cur.os_guess with _ | s
  · rw [hcur] at hg; simp at hg
  · by_cases ht : truthy g
    · rcases a with _ | av
      · simp [_maybe_set_os, ht, hcur]
      · rcases hacc : cur.os_accuracy with _ | bv
        · exact absurd ⟨rfl, Or.inl hacc⟩ hno
        · by_cases hlt : bv < av
          · exact absurd ⟨rfl, Or.inr ⟨av, bv, rfl, hacc, hlt⟩⟩ hno
          · simp [_maybe_set_os, ht, hcur, hacc, hlt]
    · have ht' : truthy g = false := by
        cases hb : truthy g
        · rfl
        · exact absurd hb ht
      simp [_maybe_set_os, ht']

/-! ### Lemmas about the best-OS-match selection -/

theorem bestAux_spec : ∀ (ms : List XmlEl) (b₀ : Option XmlEl) (a₀ : Int),
    ((∀ x ∈ ms, accOf x ≤ a₀) ∧ bestAux (b₀, a₀) ms = (b₀, a₀)) ∨
    (∃ l₁ b l₂, ms = l₁ ++ b :: l₂ ∧ a₀ < accOf b ∧
      (∀ x ∈ l₁, accOf x < accOf b) ∧ (∀ x ∈ l₂, accOf x ≤ accOf b) ∧
      bestAux (b₀, a₀) ms = (some b, accOf b)) := by
  intro ms
  induction ms with
  | nil => intro b₀ a₀; left; exact ⟨by simp, rfl⟩
  | cons m ms ih =>
    intro b₀ a₀
    by_cases hm : a₀ < accOf m
    · have hstep : bestAux (b₀, a₀) (m :: ms) = bestAux (some m, accOf m) ms := by
        simp [bestAux, hm]
      rcases ih (some m) (accOf m) with ⟨hall, heq⟩ | ⟨l₁, b, l₂, hsplit, hgt, hl₁, hl₂, heq⟩
      · right
        exact ⟨[], m, ms, rfl, hm, by simp, hall, by rw [hstep, heq]⟩
      · right
        refine ⟨m :: l₁, b, l₂, by rw [hsplit, List.cons_append], lt_trans hm hgt, ?_, hl₂,
          by rw [hstep, heq]⟩
        intro x hx
        rcases List.mem_cons.mp hx with rfl | hx
        · exact hgt
        · exact hl₁ x hx
    · have hstep : bestAux (b₀, a₀) (m :: ms) = bestAux (b₀, a₀) ms := by
        simp [bestAux, hm]
      rcases ih b₀ a₀ with ⟨hall, heq⟩ | ⟨l₁, b, l₂, hsplit, hgt, hl₁, hl₂, heq⟩
      · left
        refine ⟨?_, by rw [hstep, heq]⟩
        intro x hx
        rcases List.mem_cons.mp hx with rfl | hx
        · exact le_of_not_lt hm
        · exact hall x hx
      · right
        refine ⟨m :: l₁, b, l₂, by rw [hsplit, List.cons_append], hgt, ?_, hl₂, by rw [hstep, heq]⟩
        intro x hx
        rcases List.mem_cons.mp hx with rfl | hx
        · exact lt_of_le_of_lt (le_of_not_lt hm) hgt
        · exact hl₁ x hx

/-! ### Positional lemmas for the emission order -/

theorem before_of_append {α : Type} (l₁ l₂ : List α) (P Q : α → Prop)
    (h1 : ∀ x ∈ l₂, ¬P x) (h2 : ∀ x ∈ l₁, ¬Q x)
    (i j : Nat) (hi : i < (l₁ ++ l₂).length) (hj : j < (l₁ ++ l₂).length)
    (hP : P ((l₁ ++ l₂).get ⟨i, hi⟩)) (hQ : Q ((l₁ ++ l₂).get ⟨j, hj⟩)) : i < j := by
  simp only [List.get_eq_getElem] at hP hQ
  have hi' : i < l₁.length := by
    by_contra hc
    push_neg at hc
    rw [List.getElem_append_right hc] at hP
    exact h1 _ (List.getElem_mem _) hP
  have hj' : l₁.length ≤ j := by
    by_contra hc
    push_neg at hc
    rw [List.getElem_append_left hc] at hQ
    exact h2 _ (List.getElem_mem _) hQ
  omega

theorem before_of_split {α : Type} (L l₁ l₂ : List α) (hL : L = l₁ ++ l₂)
    (P Q : α → Prop) (h1 : ∀ x ∈ l₂, ¬P x) (h2 : ∀ x ∈ l₁, ¬Q x)
    (i j : Nat) (hi : i < L.length) (hj : j < L.length)
    (hP : P (L.get ⟨i, hi⟩)) (hQ : Q (L.get ⟨j, hj⟩)) : i < j := by
  subst hL
  exact before_of_append l₁ l₂ P Q h1 h2 i j hi hj hP hQ

/-! ### Characterisation of the multiline detector scan -/

theorem looseHostScan_iff : ∀ (cs : List Char) (b : Bool),
    looseHostScan b cs = true ↔
      ∃ pre suf, cs = pre ++ suf ∧ ((pre = [] ∧ b = true) ∨ pre.getLast? = some '\n') ∧
        looseHostAt suf = true := by
  intro cs
  induction cs with
  | nil =>
    intro b
    simp only [looseHostScan]
    constructor
    · intro hc
      exact absurd hc (by simp)
    · rintro ⟨pre, suf, heq, _, hat⟩
      rcases List.append_eq_nil.mp heq.symm with ⟨rfl, rfl⟩
      exact absurd hat (by decide)
  | cons c cs ih =>
    intro b
    simp only [looseHostScan, Bool.or_eq_true, Bool.and_eq_true]
    constructor
    · rintro (⟨hb, hat⟩ | hrec)
      · exact ⟨[], c :: cs, rfl, Or.inl ⟨rfl, hb⟩, hat⟩
      · rcases (ih (c == '\n')).mp hrec with ⟨pre, suf, heq, hstart, hat⟩
        refine ⟨c :: pre, suf, by rw [List.cons_append, heq], Or.inr ?_, hat⟩
        rcases hstart with ⟨rfl, hc⟩ | hlast
        · simp only [beq_iff_eq] at hc
          simp [hc]
        · rcases pre with _ | ⟨p, ps⟩
          · simp at hlast
          · rw [List.getLast?_cons_cons]
            exact hlast
    · rintro ⟨pre, suf, heq, hstart, hat⟩
      rcases pre with _ | ⟨p, ps⟩
      · rw [List.nil_append] at heq
        rcases hstart with ⟨_, hb⟩ | hlast
        · exact Or.inl ⟨hb, heq ▸ hat⟩
        · simp at hlast
      · rw [List.cons_append] at heq
        injection heq with h1 h2
        subst h1
        right
        apply (ih (c == '\n')).mpr
        refine ⟨ps, suf, h2, ?_, hat⟩
        rcases ps with _ | ⟨q, qs⟩
        · rcases hstart with ⟨habs, _⟩ | hlast
          · simp at habs
          · simp only [List.getLast?_singleton, Option.some.injEq] at hlast
            exact Or.inl ⟨rfl, by simp [hlast]⟩
        · rcases hstart with ⟨habs, _⟩ | hlast
          · simp at habs
          · rw [List.getLast?_cons_cons] at hlast
            exact Or.inr hlast

/-! ### Claims -/

/-- Claim C1: for every input list of Host records, `merge_hosts_by_ip`
returns a list whose address sequence is exactly the first-occurrence
subsequence of the input addresses (hence one record per distinct input
address, in first-seen order), with no two records sharing an address, and
mentioning exactly the input addresses. -/
theorem C1_merge_unique_first_seen (hosts : List Host) :
    (merge_hosts_by_ip hosts).map Host.ip = firstSeenFrom [] (hosts.map Host.ip) ∧
    ((merge_hosts_by_ip hosts).map Host.ip).Nodup ∧
    (∀ a : String, a ∈ (merge_hosts_by_ip hosts).map Host.ip ↔ a ∈ hosts.map Host.ip) := by
  refine ⟨merge_map_ip hosts, merge_map_ip_nodup hosts, ?_⟩
  intro a
  rw [merge_map_ip, mem_firstSeenFrom]
  simp

/-- Claim C6: the merge engine is idempotent — merging an already-merged
list yields exactly that list, all fields included. -/
theorem C6_merge_idempotent (hosts : List Host) :
    merge_hosts_by_ip (merge_hosts_by_ip hosts) = merge_hosts_by_ip hosts :=
  merge_of_nodup _ (merge_map_ip_nodup hosts)

/-- Claim C3: once a host holds a guess, `_maybe_set_os` accepts a
candidate only when its accuracy is known and either the existing accuracy
is unknown or the new one is strictly greater; consequently, once an
accuracy-bearing guess has been recorded, the recorded accuracy never
decreases across any update sequence. -/
theorem C3_os_update_monotone (h : Host) (hg : h.os_guess.isSome = true) :
    (∀ (g : Option String) (a : Option Int), _maybe_set_os h g a ≠ h →
        a.isSome = true ∧ (h.os_accuracy = none ∨
          ∃ av bv, a = some av ∧ h.os_accuracy = some bv ∧ bv < av)) ∧
    (∀ (us : List (Option String × Option Int)) (x : Int), h.os_accuracy = some x →
        ∃ y, (osUpdates h us).os_accuracy = some y ∧ x ≤ y) := by
  constructor
  · intro g a hne
    by_contra hno
    exact hne (maybe_set_os_reject h g a hg hno)
  · intro us x hx
    exact (osUpdates_mono us h x hg hx).2

/-- Claim C3 witness: the monotonicity conclusion instantiated on a host
holding `("Linux", 90)` through an accepting and a rejected update. -/
theorem C3_witness :
    ∃ y, (osUpdates { ip := "h", os_guess := some "Linux", os_accuracy := some 90 }
        [(some "Windows", some 95), (some "BSD", none)]).os_accuracy = some y ∧
      (90 : Int) ≤ y :=
  (C3_os_update_monotone { ip := "h", os_guess := some "Linux", os_accuracy := some 90 }
      rfl).2 [(some "Windows", some 95), (some "BSD", none)] 90 rfl

/-- Claim C7 counterexample: a single grepable line repeating one port
chunk yields a canonical (post-merge) host whose `ports` list holds the
same descriptor twice — the grepable parser performs no per-host port
de-duplication, and merging does not remove duplicates already inside one
raw record. -/
theorem C7_counterexample :
    parse_nmap_grepable "Host: 1.2.3.4 () Ports: 80/open/tcp//http///,80/open/tcp//http///" =
      [{ ip := "1.2.3.4", name := none, ports := ["80/tcp http", "80/tcp http"],
         os_guess := none, os_accuracy := none }] ∧
    ¬(["80/tcp http", "80/tcp http"] : List String).Nodup := by
  exact ⟨by decide, by decide⟩

/-- Claim C7 (amended): merging preserves per-host port de-duplication —
when every raw record's ports are duplicate-free, so are every canonical
record's; in particular the line-oriented parse pass de-duplicates each
host's ports before merging, so its canonical output always has
duplicate-free ports.  (The grepable parser does not de-duplicate within a
single line, so its canonical output can contain duplicates.) -/
theorem C7_ports_nodup (hosts : List Host) (hnd : ∀ x ∈ hosts, x.ports.Nodup) :
    (∀ g ∈ merge_hosts_by_ip hosts, g.ports.Nodup) ∧
    (∀ (text : String), ∀ g ∈ parse_nmap_normal text, g.ports.Nodup) := by
  constructor
  · exact merge_ports_nodup hosts hnd
  · intro text g hg
    simp only [parse_nmap_normal] at hg
    refine merge_ports_nodup _ ?_ g hg
    intro x hx
    rcases List.mem_map.mp hx with ⟨h0, _, rfl⟩
    exact addNewPorts_nodup h0.ports [] (by simp)

/-- Claim C7 witness: the amended statement instantiated on a concrete
duplicate-address input whose records have duplicate-free ports. -/
theorem C7_witness :
    (∀ g ∈ merge_hosts_by_ip
        [{ ip := "a", ports := ["80/tcp http", "22/tcp ssh"] },
         { ip := "a", ports := ["80/tcp http", "443/tcp https"] }], g.ports.Nodup) ∧
    (∀ (text : String), ∀ g ∈ parse_nmap_normal text, g.ports.Nodup) :=
  C7_ports_nodup _ (by decide)

/-- Claim C4: `compute_layout` is a pure function (repeated calls agree
definitionally) and, for `n ≥ 1`, returns `ceil (sqrt n)` columns,
`ceil (n / columns)` rows, and the fixed base geometry `160×70` with `40`
gaps scaled by the spec's step function of `n`. -/
theorem C4_layout (n : Nat) (h1 : 1 ≤ n) :
    compute_layout n = compute_layout n ∧
    compute_layout n = (ceilSqrt n, (n + ceilSqrt n - 1) / ceilSqrt n,
      160 * spec_scale n, 70 * spec_scale n, 40 * spec_scale n, 40 * spec_scale n) := by
  refine ⟨rfl, ?_⟩
  have hn0 : ¬ n ≤ 0 := by omega
  have hsqpos : 0 < Nat.sqrt n := Nat.sqrt_pos.mpr h1
  have hsq : 1 ≤ ceilSqrt n := by
    unfold ceilSqrt
    split
    · omega
    · omega
  have hrows1 : 1 ≤ (n + ceilSqrt n - 1) / ceilSqrt n := by
    rw [Nat.le_div_iff_mul_le (by omega)]
    omega
  have hscale : (if 150 < n then (0.6 : ℚ) else if 80 < n then (0.7 : ℚ)
      else if 30 < n then (0.85 : ℚ) else (1.0 : ℚ)) = spec_scale n := by
    unfold spec_scale
    by_cases h30 : n ≤ 30
    · rw [if_neg (by omega), if_neg (by omega), if_neg (by omega), if_pos h30]
      norm_num
    · by_cases h80 : n ≤ 80
      · rw [if_neg (by omega), if_neg (by omega), if_pos (by omega), if_neg h30, if_pos h80]
      · by_cases h150 : n ≤ 150
        · rw [if_neg (by omega), if_pos (by omega), if_neg h30, if_neg h80, if_pos h150]
        · rw [if_pos (by omega), if_neg h30, if_neg h80, if_neg h150]
  simp only [compute_layout, hn0, if_false, max_eq_right hsq, max_eq_right hrows1, hscale,
    Prod.mk.injEq]

/-- Claim C4 witness: the layout equations instantiated at `n = 3`. -/
theorem C4_witness :
    compute_layout 3 = compute_layout 3 ∧
    compute_layout 3 = (ceilSqrt 3, (3 + ceilSqrt 3 - 1) / ceilSqrt 3,
      160 * spec_scale 3, 70 * spec_scale 3, 40 * spec_scale 3, 40 * spec_scale 3) :=
  C4_layout 3 (by decide)

theorem kind_get_map (L : List DCell) (i : Nat) (hi : i < L.length) :
    (L.map DCell.kind).get ⟨i, by simpa using hi⟩ = (L.get ⟨i, hi⟩).kind := by
  simp [List.get_eq_getElem, List.getElem_map]

/-- Claim C2: with the hub enabled, the document's root children are, after
the two bookkeeping cells, all hub-to-host edges first, then the branding
element, then the hub node, then every host node in original list order;
hence every edge's position in the emission sequence precedes the hub
node's, which precedes every host node's. -/
theorem C2_emission_order (hosts : List Host) (hne : hosts ≠ []) :
    (build_drawio_cells hosts true).map DCell.kind =
      [CellKind.structural, CellKind.structural] ++
        (List.range hosts.length).map (fun i => CellKind.edge 3 (4 + i)) ++
        [CellKind.branding, CellKind.hub] ++
        (List.range hosts.length).map CellKind.host ∧
    (∀ (i j : Nat) (hi : i < (build_drawio_cells hosts true).length)
        (hj : j < (build_drawio_cells hosts true).length),
        ((build_drawio_cells hosts true).get ⟨i, hi⟩).kind.isEdge = true →
        ((build_drawio_cells hosts true).get ⟨j, hj⟩).kind = CellKind.hub → i < j) ∧
    (∀ (i j : Nat) (hi : i < (build_drawio_cells hosts true).length)
        (hj : j < (build_drawio_cells hosts true).length),
        ((build_drawio_cells hosts true).get ⟨i, hi⟩).kind = CellKind.hub →
        ((build_drawio_cells hosts true).get ⟨j, hj⟩).kind.isHost = true → i < j) := by
  have _ := hne
  have hmap : (build_drawio_cells hosts true).map DCell.kind =
      [CellKind.structural, CellKind.structural] ++
        (List.range hosts.length).map (fun i => CellKind.edge 3 (4 + i)) ++
        [CellKind.branding, CellKind.hub] ++
        (List.range hosts.length).map CellKind.host := by
    simp only [build_drawio_cells, List.map_append, List.map_map, List.map_cons, List.map_nil,
      if_pos, List.cons_append, List.nil_append, List.append_assoc]
    congr 1
  refine ⟨hmap, ?_, ?_⟩
  · intro i j hi hj hP hQ
    have hi' : i < ((build_drawio_cells hosts true).map DCell.kind).length := by simpa using hi
    have hj' : j < ((build_drawio_cells hosts true).map DCell.kind).length := by simpa using hj
    refine before_of_split ((build_drawio_cells hosts true).map DCell.kind)
      ([CellKind.structural, CellKind.structural] ++
        (List.range hosts.length).map (fun i => CellKind.edge 3 (4 + i)))
      ([CellKind.branding, CellKind.hub] ++ (List.range hosts.length).map CellKind.host)
      (by rw [hmap]; simp) (fun k => k.isEdge = true) (fun k => k = CellKind.hub)
      ?_ ?_ i j hi' hj' ?_ ?_
    · intro k hk
      rcases List.mem_append.mp hk with hk | hk
      · rcases List.mem_cons.mp hk with rfl | hk
        · simp [CellKind.isEdge]
        · rcases List.mem_cons.mp hk with rfl | hk
          · simp [CellKind.isEdge]
          · simp at hk
      · rcases List.mem_map.mp hk with ⟨i', _, rfl⟩
        simp [CellKind.isEdge]
    · intro k hk
      rcases List.mem_append.mp hk with hk | hk
      · rcases List.mem_cons.mp hk with rfl | hk
        · simp
        · rcases List.mem_cons.mp hk with rfl | hk
          · simp
          · simp at hk
      · rcases List.mem_map.mp hk with ⟨i', _, rfl⟩
        simp
    · rw [kind_get_map]; exact hP
    · rw [kind_get_map]; exact hQ
  · intro i j hi hj hP hQ
    have hi' : i < ((build_drawio_cells hosts true).map DCell.kind).length := by simpa using hi
    have hj' : j < ((build_drawio_cells hosts true).map DCell.kind).length := by simpa using hj
    refine before_of_split ((build_drawio_cells hosts true).map DCell.kind)
      ([CellKind.structural, CellKind.structural] ++
        (List.range hosts.length).map (fun i => CellKind.edge 3 (4 + i)) ++
        [CellKind.branding, CellKind.hub])
      ((List.range hosts.length).map CellKind.host)
      (by rw [hmap]) (fun k => k = CellKind.hub) (fun k => k.isHost = true)
      ?_ ?_ i j hi' hj' ?_ ?_
    · intro k hk
      rcases List.mem_map.mp hk with ⟨i', _, rfl⟩
      simp
    · intro k hk
      rcases List.mem_append.mp hk with hk | hk
      · rcases List.mem_append.mp hk with hk | hk
        · rcases List.mem_cons.mp hk with rfl | hk
          · simp [CellKind.isHost]
          · rcases List.mem_cons.mp hk with rfl | hk
            · simp [CellKind.isHost]
            · simp at hk
        · rcases List.mem_map.mp hk with ⟨i', _, rfl⟩
          simp [CellKind.isHost]
      · rcases List.mem_cons.mp hk with rfl | hk
        · simp [CellKind.isHost]
        · rcases List.mem_cons.mp hk with rfl | hk
          · simp [CellKind.isHost]
          · simp at hk
    · rw [kind_get_map]; exact hP
    · rw [kind_get_map]; exact hQ

/-- Claim C2 witness: the emission sequence of a one-host hub-enabled
document. -/
theorem C2_witness :
    (build_drawio_cells [{ ip := "10.0.0.1" }] true).map DCell.kind =
      [CellKind.structural, CellKind.structural] ++
        (List.range 1).map (fun i => CellKind.edge 3 (4 + i)) ++
        [CellKind.branding, CellKind.hub] ++
        (List.range 1).map CellKind.host :=
  (C2_emission_order [{ ip := "10.0.0.1" }] (by simp)).1

/-- Claim C5 counterexample: on the input `"Host: x"` the toplevel parser
attempts the grepable grammar (the detector fires on the loose
`Host:\s+\S+` pattern) although no line matches the strict
`Host: <addr> (<name>) Ports: <data>` pattern; the grepable attempt yields
zero hosts and the result falls back to the line-oriented parse. -/
theorem C5_counterexample :
    _looks_like_grepable "Host: x" = true ∧
    ((pySplitOn '\n' "Host: x").all (fun l => (grepHostMatch (pyStrip l)).isNone)) = true ∧
    parse_nmap_grepable "Host: x" = [] ∧
    parse_nmapWith (fun _ => []) "Host: x" = parse_nmap_normal "Host: x" ∧
    _looks_like_grepable "Host:\nx" = true ∧
    ((pySplitOn '\n' "Host:\nx").all (fun l => (grepHostMatch (pyStrip l)).isNone)) = true ∧
    parse_nmap_grepable "Host:\nx" = [] ∧
    parse_nmapWith (fun _ => []) "Host:\nx" = parse_nmap_normal "Host:\nx" := by
  refine ⟨by decide, by decide, by decide, by decide, by decide, by decide, by decide,
    by decide⟩

/-- Claim C5 (amended): on non-XML input the grepable grammar is attempted
exactly when the multiline search `^Host:\s+\S+` fires — at the start of
some line the text continues with `Host:`, then one or more whitespace
characters (which, since `\s` matches newlines, may run past the end of
that line), then a non-whitespace character — not when some line matches
the strict full grepable host pattern; if the grepable attempt yields zero
hosts the line-oriented grammar is used, so the result equals the grepable
parse when that was attempted and non-empty and the line-oriented parse
otherwise. -/
theorem C5_dispatch (xmlCase : String → List Host) (text : String)
    (hx : _looks_like_xml (pyReplaceCrLf text) = false) :
    parse_nmapWith xmlCase text =
      (if _looks_like_grepable (pyReplaceCrLf text) = true ∧
          parse_nmap_grepable (pyReplaceCrLf text) ≠ []
       then parse_nmap_grepable (pyReplaceCrLf text)
       else parse_nmap_normal (pyReplaceCrLf text)) ∧
    (_looks_like_grepable (pyReplaceCrLf text) = true ↔
      ∃ pre suf, (pyReplaceCrLf text).data = pre ++ suf ∧
        (pre = [] ∨ pre.getLast? = some '\n') ∧ looseHostAt suf = true) := by
  constructor
  · simp only [parse_nmapWith]
    rw [if_neg (by simp [hx])]
    by_cases hg : _looks_like_grepable (pyReplaceCrLf text) = true
    · rw [if_pos hg]
      rcases hgp : parse_nmap_grepable (pyReplaceCrLf text) with _ | ⟨a, as⟩
      · rw [if_neg (by simp [hgp])]
      · rw [if_pos ⟨hg, by simp [hgp]⟩]
    · rw [if_neg hg, if_neg (fun hc => hg hc.1)]
  · unfold _looks_like_grepable
    rw [looseHostScan_iff]
    constructor
    · rintro ⟨pre, suf, h1, h2, h3⟩
      refine ⟨pre, suf, h1, ?_, h3⟩
      rcases h2 with ⟨hp, _⟩ | hp
      · exact Or.inl hp
      · exact Or.inr hp
    · rintro ⟨pre, suf, h1, h2, h3⟩
      refine ⟨pre, suf, h1, ?_, h3⟩
      rcases h2 with hp | hp
      · exact Or.inl ⟨hp, rfl⟩
      · exact Or.inr hp

/-- Claim C5 witness: the dispatch equation and the detector
characterisation instantiated on a plain non-XML, non-grepable text. -/
theorem C5_witness :
    parse_nmapWith (fun _ => []) "plain text" =
      (if _looks_like_grepable (pyReplaceCrLf "plain text") = true ∧
          parse_nmap_grepable (pyReplaceCrLf "plain text") ≠ []
       then parse_nmap_grepable (pyReplaceCrLf "plain text")
       else parse_nmap_normal (pyReplaceCrLf "plain text")) ∧
    (_looks_like_grepable (pyReplaceCrLf "plain text") = true ↔
      ∃ pre suf, (pyReplaceCrLf "plain text").data = pre ++ suf ∧
        (pre = [] ∨ pre.getLast? = some '\n') ∧ looseHostAt suf = true) :=
  C5_dispatch (fun _ => []) "plain text" (by decide)

/-- Claim C8 counterexample: with one `osmatch` candidate whose accuracy
parses to `-2`, the numerically-highest-accuracy candidate is that very
candidate (named `X`), yet no OS guess is recorded: the running best starts
at `-1`, so a negative-accuracy candidate is never selected. -/
theorem C8_counterexample :
    bestOsMatch [XmlEl.mk "osmatch" [("name", "X"), ("accuracy", "-2")] []] = (none, none) ∧
    bestOsMatch [XmlEl.mk "osmatch" [("name", "X"), ("accuracy", "-2")] []] ≠
      (some "X", some (-2)) := by
  have h : bestOsMatch [XmlEl.mk "osmatch" [("name", "X"), ("accuracy", "-2")] []] =
      (none, none) := by decide
  exact ⟨h, by rw [h]; simp⟩

/-- Claim C8 (amended): whenever some `osmatch` candidate has nonnegative
parsed accuracy (unparsable counting as `0`), the parser selects the first
candidate attaining the maximal accuracy — strictly above every earlier
candidate, at least every later one — and records its stripped name (or
`None` when that is empty) together with that accuracy; candidates with
negative parsed accuracy are never selected.  In particular, on Scenario
A's tree the 92-accuracy name `NewOS` is recorded and appears in that
host's tooltip. -/
theorem C8_best_os_match (ms : List XmlEl) (hpos : ∃ m ∈ ms, 0 ≤ accOf m) :
    (∃ l₁ b l₂, ms = l₁ ++ b :: l₂ ∧
      (∀ x ∈ l₁, accOf x < accOf b) ∧ (∀ x ∈ ms, accOf x ≤ accOf b) ∧
      bestOsMatch ms = (nameOf b, some (accOf b))) ∧
    ((parse_nmap_xml xmlDemo).map Host.os_guess = [some "NewOS", none] ∧
      (parse_nmap_xml xmlDemo).map Host.tooltip_text =
        ["OS: NewOS (92%)\nOpen ports:\n22/tcp ssh\n80/tcp http\n443/tcp https",
         "OS: Unknown\nNo open ports parsed"]) := by
  constructor
  · rcases bestAux_spec ms none (-1) with ⟨hall, _⟩ | ⟨l₁, b, l₂, hsplit, hgt, hl₁, hl₂, heq⟩
    · rcases hpos with ⟨m, hm, hm0⟩
      have := hall m hm
      omega
    · refine ⟨l₁, b, l₂, hsplit, hl₁, ?_, ?_⟩
      · intro x hx
        rw [hsplit] at hx
        rcases List.mem_append.mp hx with hx | hx
        · exact le_of_lt (hl₁ x hx)
        · rcases List.mem_cons.mp hx with rfl | hx
          · exact le_refl _
          · exact hl₂ x hx
      · unfold bestOsMatch
        rw [heq]
        have h0 : (0 : Int) ≤ accOf b := by omega
        simp [h0]
  · exact ⟨by decide, by decide⟩

/-- Claim C8 witness: the selection property instantiated on Scenario A's
candidate list (accuracies 80 and 92). -/
theorem C8_witness :
    ∃ l₁ b l₂, demoOsMatches = l₁ ++ b :: l₂ ∧
      (∀ x ∈ l₁, accOf x < accOf b) ∧ (∀ x ∈ demoOsMatches, accOf x ≤ accOf b) ∧
      bestOsMatch demoOsMatches = (nameOf b, some (accOf b)) :=
  (C8_best_os_match demoOsMatches
    ⟨XmlEl.mk "osmatch" [("name", "OldOS"), ("accuracy", "80")] [],
      List.mem_cons_self _ _, by decide⟩).1

/-- Claim C9: a host-announcement line whose announced text neither ends in
a parenthesised token nor is a dotted-quad IPv4 literal yields a Host whose
name is the whole announced text and whose address is that same raw text
(the raw-text fallback, not a blank address). -/
theorem C9_raw_fallback (line raw : String)
    (hm : normalHostMatch line = some raw)
    (hp : parenMatch (pyStrip raw) = none)
    (hq : isDottedQuad (pyStrip raw) = false) :
    ∀ st : Option Host × List Host,
      (normalStep st line).1 =
        some { ip := pyStrip raw, name := some (pyStrip raw), ports := [],
               os_guess := none, os_accuracy := none } := by
  intro st
  unfold normalStep
  rw [hm]
  simp [hostFromRaw, hp, hq]

/-- Claim C9 witness: the raw-text fallback on the announced text
`gateway.local`. -/
theorem C9_witness :
    (normalStep (none, []) "Nmap scan report for gateway.local").1 =
      some { ip := pyStrip "gateway.local", name := some (pyStrip "gateway.local"),
             ports := [], os_guess := none, os_accuracy := none } :=
  C9_raw_fallback "Nmap scan report for gateway.local" "gateway.local"
    (by decide) (by decide) (by decide) (none, [])

/-- Claim C10: a `host` element with no `ipv4`/`ipv6` address child
contributes no Host record at all — removing it from the document leaves
the parse unchanged — regardless of its status, hostnames, ports or OS
matches. -/
theorem C10_no_address_skipped (pre post : List XmlEl) (h : XmlEl)
    (haddr : ∀ a ∈ h.findall "address",
        a.attr "addrtype" ≠ some "ipv4" ∧ a.attr "addrtype" ≠ some "ipv6") :
    parse_nmap_xml (XmlEl.mk "nmaprun" [] (pre ++ h :: post)) =
      parse_nmap_xml (XmlEl.mk "nmaprun" [] (pre ++ post)) := by
  have hfind : (h.findall "address").find? (fun a =>
      a.attr "addrtype" == some "ipv4" || a.attr "addrtype" == some "ipv6") = none := by
    rw [List.find?_eq_none]
    intro a ha
    have hha := haddr a ha
    simp [hha.1, hha.2]
  have hrec : xmlHostRecord h = none := by
    unfold xmlHostRecord
    simp [hfind]
  unfold parse_nmap_xml
  congr 1
  simp only [XmlEl.findall, XmlEl.children, List.filter_append, List.filter_cons]
  by_cases ht : (h.tag == "host") = true
  · simp [ht, List.filterMap_append, hrec]
  · simp [ht, List.filterMap_append]

/-- Claim C10 witness: an `up` host with hostname, open port and OS match
but only a MAC address child is silently dropped. -/
theorem C10_witness :
    parse_nmap_xml (XmlEl.mk "nmaprun" [] ([] ++ demoNoAddrHost :: [])) =
      parse_nmap_xml (XmlEl.mk "nmaprun" [] ([] ++ [])) :=
  C10_no_address_skipped [] [] demoNoAddrHost (by decide)

end NmapDrawio
